import Mathlib

/-!
Verification of the OCR parameter-extraction pipeline (`src/index.py`).

The development shallowly embeds the Python source:

* `extract_parameter`, `detect_parameters`, `detect_text` embed the methods of
  `OCRParameterModel`; the Python regular expressions of `parameter_patterns`
  are embedded as backtracking matchers (`Pat`) whose list-of-successes
  preference order mirrors the semantics of `re.search`: leftmost start
  position first, alternatives in written order, quantifiers greedy.
* `download_image`, `process_image`, `process_chunk_results` embed the batch
  orchestration; external effects (HTTP fetch, model inference, thread
  completion order) are passed in as explicit parameters.
-/

/-- ASCII lowercasing of one character, embedding Python `str.lower()`
on the ASCII range (all pattern matching in the source is over ASCII). -/
def lowerChar (c : Char) : Char :=
  match c with
  | 'A' => 'a' | 'B' => 'b' | 'C' => 'c' | 'D' => 'd' | 'E' => 'e'
  | 'F' => 'f' | 'G' => 'g' | 'H' => 'h' | 'I' => 'i' | 'J' => 'j'
  | 'K' => 'k' | 'L' => 'l' | 'M' => 'm' | 'N' => 'n' | 'O' => 'o'
  | 'P' => 'p' | 'Q' => 'q' | 'R' => 'r' | 'S' => 's' | 'T' => 't'
  | 'U' => 'u' | 'V' => 'v' | 'W' => 'w' | 'X' => 'x' | 'Y' => 'y'
  | 'Z' => 'z'
  | c => c

/-- `text.lower()` on the character list of a string. -/
def lowerList (l : List Char) : List Char := l.map lowerChar

/-- Python regex `\s` (whitespace class) on ASCII. -/
def isPySpace (c : Char) : Bool :=
  c = ' ' || c = '\t' || c = '\n' || c = '\r' || c = '\x0b' || c = '\x0c'

/-- Python regex `\w` (word class) on ASCII; `\b` is a transition
between `\w` and non-`\w`. -/
def isWordChar (c : Char) : Bool := c.isAlpha || c.isDigit || c = '_'

/-- Python `str.strip()` on a character list. -/
def trimList (l : List Char) : List Char :=
  ((l.dropWhile isPySpace).reverse.dropWhile isPySpace).reverse

/-- Python `str.strip()`. -/
def pyStrip (s : String) : String := String.mk (trimList s.data)

/-! ### Backtracking regex matchers

A matcher consumes a prefix of the input and returns every way it can
succeed as `(consumed, captured groups, rest)`, ordered by PCRE backtracking
preference (alternatives in written order, greedy quantifiers longest
first). The head of the list is the match `re` commits to. -/

/-- Result of running a matcher: each success is
(consumed characters, capture groups opened inside, remaining input),
in backtracking preference order. -/
abbrev PRes := List (List Char × List (List Char) × List Char)

/-- A backtracking matcher over character lists. -/
abbrev Pat := List Char → PRes

/-- The empty pattern: consumes nothing, always succeeds. -/
def pemp : Pat := fun s => [([], [], s)]

/-- A literal character. -/
def plit (c : Char) : Pat := fun s =>
  match s with
  | [] => []
  | a :: r => if a = c then [([a], [], r)] else []

/-- A single character of a class (such as `\d` or `\s`). -/
def pcls (f : Char → Bool) : Pat := fun s =>
  match s with
  | [] => []
  | a :: r => if f a then [([a], [], r)] else []

/-- Sequencing of two patterns. -/
def pseq (p q : Pat) : Pat := fun s =>
  (p s).flatMap fun x =>
    (q x.2.2).map fun y => (x.1 ++ y.1, x.2.1 ++ y.2.1, y.2.2)

/-- Alternation `p|q`: `p`'s successes are preferred. -/
def palt (p q : Pat) : Pat := fun s => p s ++ q s

/-- A literal string. -/
def pstr (cs : List Char) : Pat := cs.foldr (fun c acc => pseq (plit c) acc) pemp

/-- Greedy option `p?`: taking `p` is preferred. -/
def popt (p : Pat) : Pat := palt p pemp

/-- A capturing group: records the consumed text as a group. -/
def pcap (p : Pat) : Pat := fun s =>
  (p s).map fun x => (x.1, x.1 :: x.2.1, x.2.2)

/-- All ways to split off a (possibly empty) run of `f`-characters,
longest first — the backtracking states of a greedy `f*`. -/
def runSplits (f : Char → Bool) : List Char → List (List Char × List Char)
  | [] => [([], [])]
  | a :: r =>
    if f a then
      ((runSplits f r).map fun x => (a :: x.1, x.2)) ++ [([], a :: r)]
    else [([], a :: r)]

/-- Greedy `f*` over a character class. -/
def pstar (f : Char → Bool) : Pat := fun s =>
  (runSplits f s).map fun x => (x.1, [], x.2)

/-- Greedy `f+` over a character class. -/
def pplus (f : Char → Bool) : Pat := fun s =>
  (runSplits f s).filterMap fun x =>
    match x.1 with
    | [] => none
    | _ => some (x.1, [], x.2)

/-- `\b` as it occurs in the source's patterns: always directly after a
word character, so it holds exactly when the rest is empty or starts with
a non-word character. Consumes nothing. -/
def pwb : Pat := fun s =>
  match s with
  | [] => [([], [], [])]
  | a :: r => if isWordChar a then [] else [([], [], a :: r)]

/-! ### The pattern table (`OCRParameterModel.parameter_patterns`) -/

/-- `(\d+(?:\.\d+)?)` — the captured numeric value. -/
def numP : Pat :=
  pcap (pseq (pplus Char.isDigit) (popt (pseq (plit '.') (pplus Char.isDigit))))

/-- `(?:v|volt|kV|mV)` — voltage unit, non-capturing, alternatives in
source order. -/
def voltUnitP : Pat :=
  palt (pstr ['v'])
    (palt (pstr ['v', 'o', 'l', 't'])
      (palt (pstr ['k', 'V']) (pstr ['m', 'V'])))

/-- `(\d+(?:\.\d+)?)\s*(?:v|volt|kV|mV)(?:s)?\b` -/
def voltageP : Pat :=
  pseq numP (pseq (pstar isPySpace) (pseq voltUnitP (pseq (popt (plit 's')) pwb)))

/-- `(g|kg|lbs?|oz|mg)` -/
def weightUnitP : Pat :=
  pcap (palt (pstr ['g'])
    (palt (pstr ['k', 'g'])
      (palt (pseq (pstr ['l', 'b']) (popt (plit 's')))
        (palt (pstr ['o', 'z']) (pstr ['m', 'g'])))))

/-- `(\d+(?:\.\d+)?)\s*(g|kg|lbs?|oz|mg)\b` -/
def weightP : Pat :=
  pseq numP (pseq (pstar isPySpace) (pseq weightUnitP pwb))

/-- `(cm|m|inch|ft|mm)` -/
def lenUnitP : Pat :=
  pcap (palt (pstr ['c', 'm'])
    (palt (pstr ['m'])
      (palt (pstr ['i', 'n', 'c', 'h'])
        (palt (pstr ['f', 't']) (pstr ['m', 'm'])))))

/-- `(\d+(?:\.\d+)?)\s*(cm|m|inch|ft|mm)\b` -/
def heightP : Pat :=
  pseq numP (pseq (pstar isPySpace) (pseq lenUnitP pwb))

/-- `(ml|l|fl\s?oz|gal)` -/
def volUnitP : Pat :=
  pcap (palt (pstr ['m', 'l'])
    (palt (pstr ['l'])
      (palt (pseq (pstr ['f', 'l']) (pseq (popt (pcls isPySpace)) (pstr ['o', 'z'])))
        (pstr ['g', 'a', 'l']))))

/-- `(\d+(?:\.\d+)?)\s*(ml|l|fl\s?oz|gal)\b` -/
def volumeP : Pat :=
  pseq numP (pseq (pstar isPySpace) (pseq volUnitP pwb))

/-- `(w|watt|mw)` -/
def wattUnitP : Pat :=
  pcap (palt (pstr ['w']) (palt (pstr ['w', 'a', 't', 't']) (pstr ['m', 'w'])))

/-- `(\d+(?:\.\d+)?)\s*(w|watt|mw)(?:s)?\b` -/
def wattageP : Pat :=
  pseq numP (pseq (pstar isPySpace) (pseq wattUnitP (pseq (popt (plit 's')) pwb)))

/-- `(?:depth|d):\s*(\d+(?:\.\d+)?)\s*(cm|m|inch|ft|mm)\b` -/
def depthP : Pat :=
  pseq (palt (pstr ['d', 'e', 'p', 't', 'h']) (pstr ['d']))
    (pseq (plit ':')
      (pseq (pstar isPySpace)
        (pseq numP (pseq (pstar isPySpace) (pseq lenUnitP pwb)))))

/-- `(?:width|w):\s*(\d+(?:\.\d+)?)\s*(cm|m|inch|ft|mm)\b` -/
def widthP : Pat :=
  pseq (palt (pstr ['w', 'i', 'd', 't', 'h']) (pstr ['w']))
    (pseq (plit ':')
      (pseq (pstar isPySpace)
        (pseq numP (pseq (pstar isPySpace) (pseq lenUnitP pwb)))))

/-- `(?:max(?:imum)?\s*weight|weight\s*capacity)` -/
def mwHeadP : Pat :=
  palt
    (pseq (pstr ['m', 'a', 'x'])
      (pseq (popt (pstr ['i', 'm', 'u', 'm']))
        (pseq (pstar isPySpace) (pstr ['w', 'e', 'i', 'g', 'h', 't']))))
    (pseq (pstr ['w', 'e', 'i', 'g', 'h', 't'])
      (pseq (pstar isPySpace) (pstr ['c', 'a', 'p', 'a', 'c', 'i', 't', 'y'])))

/-- `(kg|lbs?)` -/
def mwUnitP : Pat :=
  pcap (palt (pstr ['k', 'g']) (pseq (pstr ['l', 'b']) (popt (plit 's'))))

/-- `(?:max(?:imum)?\s*weight|weight\s*capacity):\s*(\d+(?:\.\d+)?)\s*(kg|lbs?)\b` -/
def maxWeightP : Pat :=
  pseq mwHeadP
    (pseq (plit ':')
      (pseq (pstar isPySpace)
        (pseq numP (pseq (pstar isPySpace) (pseq mwUnitP pwb)))))

/-- The static pattern table `OCRParameterModel.parameter_patterns`,
keyed by parameter type name. -/
def parameter_patterns : List (String × Pat) :=
  [("voltage", voltageP), ("weight", weightP), ("height", heightP),
   ("volume", volumeP), ("wattage", wattageP), ("depth", depthP),
   ("width", widthP), ("max_weight", maxWeightP)]

/-! ### `re.search` and `extract_parameter` -/

/-- `re.search`: try the pattern at each start position from the left;
at the first position with a success, commit to the preferred
(backtracking-first) success and return its capture groups. -/
def searchFrom (p : Pat) : List Char → Option (List (List Char))
  | [] =>
    match p [] with
    | x :: _ => some x.2.1
    | [] => none
  | a :: r =>
    match p (a :: r) with
    | x :: _ => some x.2.1
    | [] => searchFrom p r

/-- `value, unit = match.groups() if len(match.groups()) == 2 else
(match.group(1), ""); return f"{value} {unit}".strip()`. -/
def build_result (groups : List (List Char)) : String :=
  let vu : List Char × List Char :=
    match groups with
    | [v, u] => (v, u)
    | _ => (groups.headD [], [])
  pyStrip (String.mk (vu.1 ++ [' '] ++ vu.2))

/-- `OCRParameterModel.extract_parameter`: look the (lowercased) type up
in the pattern table, search the lowercased text, build the result
string; `none` embeds Python `None`. -/
def extract_parameter (text : String) (parameter_type : String) : Option String :=
  match parameter_patterns.lookup (String.mk (lowerList parameter_type.data)) with
  | none => none
  | some pat =>
    match searchFrom pat (lowerList text.data) with
    | some groups => some (build_result groups)
    | none => none

/-! ### Text detection and parameter resolution -/

/-- One recognized text span, embedding the tuples of `detect_text`:
Engine A (easyocr) spans are `(bbox, text, confidence)` triples; Engine B
(tesseract) lines are materialized as `(None, text, None)`. -/
abbrev Span := Option Nat × String × Option Nat

/-- Python `str.split(sep)` for a one-character separator: splits at every
occurrence, keeping empty pieces. -/
def splitOnChar (c : Char) : List Char → List (List Char)
  | [] => [[]]
  | a :: r =>
    if a = c then [] :: splitOnChar c r
    else
      match splitOnChar c r with
      | [] => [[a]]
      | h :: t => (a :: h) :: t

/-- `OCRParameterModel.detect_text`: Engine A's spans as returned, followed
by Engine B's text split on newlines with lines that are empty after
`strip()` dropped (`if text.strip()`). -/
def detect_text (easyocr_results : List Span) (tesseract_text : String) : List Span :=
  easyocr_results ++
    (((splitOnChar '\n' tesseract_text.data).map String.mk).filter
        (fun t => pyStrip t ≠ "")).map
      (fun t => ((none : Option Nat), t, (none : Option Nat)))

/-- Python `dict` assignment `d[k] = v`: update in place if the key is
present (keeping its position), otherwise append. -/
def dictInsert (d : List (String × String)) (k v : String) : List (String × String) :=
  if d.any (fun kv => kv.1 = k) then
    d.map (fun kv => if kv.1 = k then (k, v) else kv)
  else d ++ [(k, v)]

/-- The inner loop body of `detect_parameters` for one span:
`result = extract_parameter(text, pt); if result: parameters[pt] = result`
(Python truthiness: an empty string is not stored). -/
def detectStep (text : String) (d : List (String × String)) (pt : String) :
    List (String × String) :=
  match extract_parameter text pt with
  | some r => if r = "" then d else dictInsert d pt r
  | none => d

/-- `OCRParameterModel.detect_parameters`: walk spans in order and, for
every requested type, attempt extraction on the span's text, assigning
any hit into the dictionary (later hits overwrite earlier ones, exactly
as the Python assignment does). -/
def detect_parameters (text_results : List Span) (params_to_find : List String) :
    List (String × String) :=
  text_results.foldl (fun d sp => params_to_find.foldl (detectStep sp.2.1) d) []

/-! ### Batch orchestration -/

/-- Outcome of the HTTP fetch inside `download_image`: status 200 with a
saved path, a non-200 status, or a raised exception. -/
inductive FetchOutcome where
  | ok (path : String)
  | httpError (status : Nat)
  | exn
deriving DecidableEq, Repr

/-- `download_image`: returns the saved path on HTTP 200; returns `None`
on any other status; the `try/except` converts any exception to `None`
as well. -/
def download_image (outcome : FetchOutcome) : Option String :=
  match outcome with
  | .ok path => some path
  | .httpError _ => none
  | .exn => none

/-- `entity_mapping.get(entity_name, entity_name)` in `process_image`. -/
def resolve_param_type (entity_mapping : List (String × String))
    (entity_name : String) : String :=
  (entity_mapping.lookup entity_name).getD entity_name

/-- The static `entity_mapping` of `main`. -/
def entity_mapping : List (String × String) :=
  [("item_weight", "weight"), ("item_volume", "volume"),
   ("max_weight_recommendation", "max_weight"), ("height", "height"),
   ("width", "width"), ("voltage", "voltage"), ("wattage", "wattage"),
   ("depth", "depth")]

/-- `process_image`. The model's `predict` is passed in as a function of
the image path and the resolved parameter type; `Except.error` embeds a
Python exception raised inside it, `Except.ok none` embeds `predict`
returning `None` (decode failure), `Except.ok (some d)` the returned
dict. `process_image` itself has no `try/except`: an exception from
`predict` propagates. -/
def process_image (dl : FetchOutcome)
    (predict : String → String → Except Unit (Option (List (String × String))))
    (entity_name : String) (em : List (String × String)) : Except Unit String :=
  match download_image dl with
  | some image_path =>
    let param_type := resolve_param_type em entity_name
    match predict image_path param_type with
    | .error e => .error e
    | .ok (some preds) =>
      match preds with
      | [] => .ok "No result"
      | kv :: _ => .ok kv.2
    | .ok none => .ok "No result"
  | none => .ok "No result"

/-- `process_chunk`'s result assembly: futures are submitted in row order
(`rowResults` holds the value row `i`'s future resolves to), then results
are appended in `as_completed` order (`order` lists row indices by
completion) and assigned positionally to the chunk's `predictions`
column. -/
def process_chunk_results (rowResults : List String) (order : List Nat) : List String :=
  order.map (fun i => rowResults.getD i "")

/-! ### The voltage pattern with its uppercase alternatives removed
(used to state that `kV`/`mV` are unreachable after lowercasing) -/

/-- `(?:v|volt)` — the voltage unit alternation without the `kV`/`mV`
alternatives. -/
def voltUnitLowerP : Pat := palt (pstr ['v']) (pstr ['v', 'o', 'l', 't'])

/-- The voltage pattern with the `kV`/`mV` alternatives removed. -/
def voltageLowerP : Pat :=
  pseq numP (pseq (pstar isPySpace) (pseq voltUnitLowerP (pseq (popt (plit 's')) pwb)))

/-- Voltage extraction through `voltageLowerP` instead of `voltageP`. -/
def extract_voltage_sansUpper (text : String) : Option String :=
  match searchFrom voltageLowerP (lowerList text.data) with
  | some groups => some (build_result groups)
  | none => none

/-- The result-collection loop of `process_chunk` over fallible futures:
`future.result()` re-raises an exception stored in a future, so the first
errored future (in completion order) aborts the whole collection. -/
def collect_results (futureResults : List (Except Unit String)) (order : List Nat) :
    Except Unit (List String) :=
  List.foldlM (fun acc i => (futureResults.getD i (Except.ok "")).map
    (fun s => acc ++ [s])) [] order

/-- Every success of the matcher leaves a suffix of the input as rest. -/
def SuffRes (p : Pat) : Prop := ∀ l x, x ∈ p l → x.2.2 <:+ l

/-! ### Helper lemmas: matcher results only move forward in the input -/

theorem flatMapCongr {α β : Type} (xs : List α) (f g : α → List β)
    (h : ∀ a ∈ xs, f a = g a) : xs.flatMap f = xs.flatMap g := by
  induction xs with
  | nil => rfl
  | cons a t ih =>
    simp only [List.flatMap_cons]
    rw [h a (List.mem_cons_self a t), ih (fun b hb => h b (List.mem_cons_of_mem a hb))]

theorem suffRes_pemp : SuffRes pemp := by
  intro l x hx
  simp only [pemp, List.mem_singleton] at hx
  subst hx
  exact List.suffix_refl l

theorem suffRes_plit (c : Char) : SuffRes (plit c) := by
  intro l x hx
  cases l with
  | nil => simp [plit] at hx
  | cons a r =>
    simp only [plit] at hx
    split at hx
    · simp only [List.mem_singleton] at hx
      subst hx
      exact List.suffix_cons a r
    · simp at hx

theorem suffRes_pcls (f : Char → Bool) : SuffRes (pcls f) := by
  intro l x hx
  cases l with
  | nil => simp [pcls] at hx
  | cons a r =>
    simp only [pcls] at hx
    split at hx
    · simp only [List.mem_singleton] at hx
      subst hx
      exact List.suffix_cons a r
    · simp at hx

theorem suffRes_pseq {p q : Pat} (hp : SuffRes p) (hq : SuffRes q) :
    SuffRes (pseq p q) := by
  intro l x hx
  simp only [pseq, List.mem_flatMap, List.mem_map] at hx
  obtain ⟨a, ha, y, hy, rfl⟩ := hx
  exact (hq _ _ hy).trans (hp _ _ ha)

theorem suffRes_palt {p q : Pat} (hp : SuffRes p) (hq : SuffRes q) :
    SuffRes (palt p q) := by
  intro l x hx
  rcases List.mem_append.mp hx with h | h
  · exact hp _ _ h
  · exact hq _ _ h

theorem suffRes_pstr (cs : List Char) : SuffRes (pstr cs) := by
  induction cs with
  | nil => exact suffRes_pemp
  | cons c t ih => exact suffRes_pseq (suffRes_plit c) ih

theorem suffRes_popt {p : Pat} (hp : SuffRes p) : SuffRes (popt p) :=
  suffRes_palt hp suffRes_pemp

theorem suffRes_pcap {p : Pat} (hp : SuffRes p) : SuffRes (pcap p) := by
  intro l x hx
  simp only [pcap, List.mem_map] at hx
  obtain ⟨y, hy, rfl⟩ := hx
  exact hp l y hy

theorem runSplits_suffix (f : Char → Bool) :
    ∀ l x, x ∈ runSplits f l → x.2 <:+ l := by
  intro l
  induction l with
  | nil =>
    intro x hx
    simp only [runSplits, List.mem_singleton] at hx
    subst hx
    exact List.suffix_refl []
  | cons a r ih =>
    intro x hx
    simp only [runSplits] at hx
    split at hx
    · rcases List.mem_append.mp hx with h | h
      · simp only [List.mem_map] at h
        obtain ⟨y, hy, rfl⟩ := h
        exact (ih y hy).trans (List.suffix_cons a r)
      · simp only [List.mem_singleton] at h
        subst h
        exact List.suffix_refl _
    · simp only [List.mem_singleton] at hx
      subst hx
      exact List.suffix_refl _

theorem suffRes_pstar (f : Char → Bool) : SuffRes (pstar f) := by
  intro l x hx
  simp only [pstar, List.mem_map] at hx
  obtain ⟨y, hy, rfl⟩ := hx
  exact runSplits_suffix f l y hy

theorem suffRes_pplus (f : Char → Bool) : SuffRes (pplus f) := by
  intro l x hx
  simp only [pplus, List.mem_filterMap] at hx
  obtain ⟨y, hy, hxy⟩ := hx
  have hsuff := runSplits_suffix f l y hy
  cases hc : y.1 with
  | nil => rw [hc] at hxy; simp at hxy
  | cons c cs =>
    rw [hc] at hxy
    simp only [Option.some_inj] at hxy
    subst hxy
    exact hsuff

theorem suffRes_pwb : SuffRes pwb := by
  intro l x hx
  cases l with
  | nil =>
    simp only [pwb, List.mem_singleton] at hx
    subst hx
    exact List.suffix_refl []
  | cons a r =>
    simp only [pwb] at hx
    split at hx
    · simp at hx
    · simp only [List.mem_singleton] at hx
      subst hx
      exact List.suffix_refl _

theorem suffRes_numP : SuffRes numP :=
  suffRes_pcap (suffRes_pseq (suffRes_pplus _)
    (suffRes_popt (suffRes_pseq (suffRes_plit _) (suffRes_pplus _))))

/-- Replacing the second matcher of a sequence by one that agrees on every
suffix of the input does not change the result. -/
theorem pseq_ext {p : Pat} (q q' : Pat) (hp : SuffRes p) (l : List Char)
    (h : ∀ r, r <:+ l → q r = q' r) : pseq p q l = pseq p q' l := by
  simp only [pseq]
  exact flatMapCongr _ _ _ (fun a ha => by rw [h a.2.2 (hp l a ha)])

/-- `searchFrom` only evaluates the matcher on suffixes of the input. -/
theorem searchFrom_ext (p p' : Pat) :
    ∀ l, (∀ r, r <:+ l → p r = p' r) → searchFrom p l = searchFrom p' l := by
  intro l
  induction l with
  | nil =>
    intro h
    simp only [searchFrom]
    rw [h [] (List.suffix_refl _)]
  | cons a r ih =>
    intro h
    simp only [searchFrom]
    rw [h (a :: r) (List.suffix_refl _)]
    cases p' (a :: r) with
    | nil => exact ih (fun r' hr' => h r' (hr'.trans (List.suffix_cons a r)))
    | cons x xs => rfl

/-! ### Lowercased text contains no uppercase `V` -/

theorem lowerChar_ne_V (c : Char) : lowerChar c ≠ 'V' := by
  unfold lowerChar
  split <;> first | decide | assumption

theorem not_V_mem_lowerList (l : List Char) : 'V' ∉ lowerList l := by
  intro h
  simp only [lowerList, List.mem_map] at h
  obtain ⟨c, _, hc⟩ := h
  exact lowerChar_ne_V c hc

theorem plit_V_eq_nil (l : List Char) (h : 'V' ∉ l) : plit 'V' l = [] := by
  cases l with
  | nil => rfl
  | cons a r =>
    have ha : a ≠ 'V' := fun e => h (e ▸ List.mem_cons_self a r)
    simp [plit, ha]

theorem pstr_kV_eq_nil (l : List Char) (h : 'V' ∉ l) : pstr ['k', 'V'] l = [] := by
  show pseq (plit 'k') (pseq (plit 'V') pemp) l = []
  cases l with
  | nil => rfl
  | cons a r =>
    have hr : 'V' ∉ r := fun hm => h (List.mem_cons_of_mem a hm)
    by_cases ha : a = 'k'
    · subst ha
      have hk : plit 'k' ('k' :: r) = [(['k'], [], r)] := by simp [plit]
      simp only [pseq, hk, List.flatMap_cons, List.flatMap_nil, List.append_nil]
      rw [plit_V_eq_nil r hr]
      rfl
    · simp [pseq, plit, ha]

theorem pstr_mV_eq_nil (l : List Char) (h : 'V' ∉ l) : pstr ['m', 'V'] l = [] := by
  show pseq (plit 'm') (pseq (plit 'V') pemp) l = []
  cases l with
  | nil => rfl
  | cons a r =>
    have hr : 'V' ∉ r := fun hm => h (List.mem_cons_of_mem a hm)
    by_cases ha : a = 'm'
    · subst ha
      have hk : plit 'm' ('m' :: r) = [(['m'], [], r)] := by simp [plit]
      simp only [pseq, hk, List.flatMap_cons, List.flatMap_nil, List.append_nil]
      rw [plit_V_eq_nil r hr]
      rfl
    · simp [pseq, plit, ha]

theorem voltUnitP_eq_lower (l : List Char) (h : 'V' ∉ l) :
    voltUnitP l = voltUnitLowerP l := by
  simp [voltUnitP, voltUnitLowerP, palt, pstr_kV_eq_nil l h, pstr_mV_eq_nil l h]

theorem voltageP_eq_lower (l : List Char) (h : 'V' ∉ l) :
    voltageP l = voltageLowerP l := by
  unfold voltageP voltageLowerP
  refine pseq_ext _ _ suffRes_numP l (fun r hr => ?_)
  refine pseq_ext _ _ (suffRes_pstar isPySpace) r (fun r2 hr2 => ?_)
  have h2 : 'V' ∉ r2 := fun hm => h (hr.subset (hr2.subset hm))
  simp only [pseq]
  rw [voltUnitP_eq_lower r2 h2]

theorem searchFrom_voltage_lower (l : List Char) (h : 'V' ∉ l) :
    searchFrom voltageP l = searchFrom voltageLowerP l :=
  searchFrom_ext _ _ l (fun r hr => voltageP_eq_lower r (fun hm => h (hr.subset hm)))

/-! ### Dictionary and resolution-loop lemmas -/

theorem dictInsert_cons_ne (k v k' v' : String) (t : List (String × String))
    (h : k' ≠ k) :
    dictInsert ((k', v') :: t) k v = (k', v') :: dictInsert t k v := by
  simp only [dictInsert, List.any_cons, h, decide_False, Bool.false_or]
  cases ht : t.any (fun kv => decide (kv.1 = k)) with
  | true => simp [h]
  | false => simp

theorem lookup_cons (k a b : String) (t : List (String × String)) :
    List.lookup k ((a, b) :: t) = if k = a then some b else List.lookup k t := by
  by_cases h : k = a
  · subst h
    simp [List.lookup]
  · simp [List.lookup, beq_eq_false_iff_ne.mpr h, h]

theorem lookup_map_update (t : List (String × String)) (k v k' : String)
    (h : k' ≠ k) :
    (t.map (fun kv => if kv.1 = k then (k, v) else kv)).lookup k' = t.lookup k' := by
  induction t with
  | nil => rfl
  | cons hd tl ih =>
    obtain ⟨a, b⟩ := hd
    simp only [List.map_cons]
    by_cases ha : a = k
    · subst ha
      rw [if_pos (show ((a, b).1 = a) from rfl), lookup_cons, lookup_cons,
        if_neg h, if_neg h]
      exact ih
    · rw [if_neg (show ¬((a, b).1 = k) from ha), lookup_cons, lookup_cons]
      by_cases hk : k' = a
      · rw [if_pos hk, if_pos hk]
      · rw [if_neg hk, if_neg hk]
        exact ih

theorem lookup_dictInsert_self (d : List (String × String)) (k v : String) :
    (dictInsert d k v).lookup k = some v := by
  induction d with
  | nil => simp [dictInsert, List.lookup]
  | cons hd t ih =>
    obtain ⟨a, b⟩ := hd
    by_cases ha : a = k
    · subst ha
      simp only [dictInsert, List.any_cons, decide_True, Bool.true_or, if_true,
        List.map_cons, if_pos rfl, List.lookup, beq_self_eq_true]
    · rw [dictInsert_cons_ne k v a b t ha]
      simp only [List.lookup, show (k == a) = false from beq_eq_false_iff_ne.mpr (Ne.symm ha)]
      exact ih

theorem lookup_dictInsert_ne (d : List (String × String)) (k v k' : String)
    (h : k' ≠ k) :
    (dictInsert d k v).lookup k' = d.lookup k' := by
  induction d with
  | nil =>
    simp [dictInsert, List.lookup, show (k' == k) = false from beq_eq_false_iff_ne.mpr h]
  | cons hd t ih =>
    obtain ⟨a, b⟩ := hd
    by_cases ha : a = k
    · subst ha
      simp only [dictInsert, List.any_cons, decide_True, Bool.true_or, if_true,
        List.map_cons, if_pos rfl, List.lookup,
        show (k' == a) = false from beq_eq_false_iff_ne.mpr h]
      exact lookup_map_update t a v k' h
    · rw [dictInsert_cons_ne k v a b t ha]
      simp only [List.lookup]
      cases hk : k' == a with
      | true => rfl
      | false => exact ih

theorem innerFold_lookup_of_not_mem (text : String) (t : String) :
    ∀ (params : List String) (d : List (String × String)), t ∉ params →
      (params.foldl (detectStep text) d).lookup t = d.lookup t := by
  intro params
  induction params with
  | nil => intro d _; rfl
  | cons p ps ih =>
    intro d h
    have hp : t ≠ p := fun e => h (e ▸ List.mem_cons_self p ps)
    have hps : t ∉ ps := fun m => h (List.mem_cons_of_mem _ m)
    rw [List.foldl_cons, ih _ hps]
    unfold detectStep
    cases hx : extract_parameter text p with
    | none => rfl
    | some r =>
      by_cases hr : r = ""
      · simp [hr]
      · simp [hr, lookup_dictInsert_ne d p r t hp]

theorem innerFold_lookup_of_mem (text : String) (t v : String)
    (hm : extract_parameter text t = some v) (hv : v ≠ "") :
    ∀ (params : List String) (d : List (String × String)), t ∈ params →
      (params.foldl (detectStep text) d).lookup t = some v := by
  intro params
  induction params with
  | nil => intro d ht; cases ht
  | cons p ps ih =>
    intro d ht
    rw [List.foldl_cons]
    by_cases hmem : t ∈ ps
    · exact ih _ hmem
    · have hpt : t = p := by
        rcases List.mem_cons.mp ht with h | h
        · exact h
        · exact absurd h hmem
      subst hpt
      rw [innerFold_lookup_of_not_mem text t ps _ hmem]
      unfold detectStep
      rw [hm]
      simp [hv, lookup_dictInsert_self]

/-! ### `strip()` lemmas for the result-construction analysis -/

theorem dropWhile_eq_self_of_all (f : Char → Bool) (l : List Char)
    (h : ∀ c ∈ l, f c = false) : l.dropWhile f = l := by
  cases l with
  | nil => rfl
  | cons a t => simp [List.dropWhile_cons, h a (List.mem_cons_self a t)]

theorem trimList_eq_self_of_all (l : List Char) (h : ∀ c ∈ l, isPySpace c = false) :
    trimList l = l := by
  unfold trimList
  rw [dropWhile_eq_self_of_all _ _ h,
    dropWhile_eq_self_of_all _ _ (fun c hc => h c (List.mem_reverse.mp hc)),
    List.reverse_reverse]

theorem trimList_append_space (l : List Char) (h : ∀ c ∈ l, isPySpace c = false) :
    trimList (l ++ [' ']) = l := by
  cases l with
  | nil => rfl
  | cons a t =>
    unfold trimList
    have ha : isPySpace a = false := h a (List.mem_cons_self a t)
    rw [List.cons_append, List.dropWhile_cons]
    simp only [ha, Bool.false_eq_true, if_false]
    rw [List.reverse_cons]
    have hrev : (t ++ [' ']).reverse = ' ' :: t.reverse := by
      rw [List.reverse_append]
      rfl
    rw [show ((t ++ [' ']).reverse ++ [a]) = ' ' :: (t.reverse ++ [a]) by
      rw [hrev]; rfl]
    rw [List.dropWhile_cons]
    simp only [show isPySpace ' ' = true from rfl, if_true]
    rw [dropWhile_eq_self_of_all _ _ (fun c hc => ?side), List.reverse_append,
      List.reverse_reverse]
    · rfl
    case side =>
      rcases List.mem_append.mp hc with hc | hc
      · exact h c (List.mem_cons_of_mem a (List.mem_reverse.mp hc))
      · rw [List.mem_singleton.mp hc]
        exact ha

theorem trimList_join (v u : List Char) (hv : ∀ c ∈ v, isPySpace c = false)
    (hu : ∀ c ∈ u, isPySpace c = false) (hvne : v ≠ []) (hune : u ≠ []) :
    trimList (v ++ [' '] ++ u) = v ++ [' '] ++ u := by
  obtain ⟨a, t, rfl⟩ := List.exists_cons_of_ne_nil hvne
  unfold trimList
  have ha : isPySpace a = false := hv a (List.mem_cons_self a t)
  rw [List.cons_append, List.cons_append, List.dropWhile_cons]
  simp only [ha, Bool.false_eq_true, if_false]
  have hrevne : (((a :: t) ++ [' ']) ++ u).reverse ≠ [] := by
    simp
  obtain ⟨b, w, hbw⟩ := List.exists_cons_of_ne_nil
    (show (u.reverse ++ (((a :: t) ++ [' ']).reverse)) ≠ [] by simp)
  have hrw : ((a :: t) ++ [' '] ++ u).reverse = u.reverse ++ ((a :: t) ++ [' ']).reverse :=
    List.reverse_append _ _
  rw [show (a :: (t ++ [' '] ++ u)) = (a :: t) ++ [' '] ++ u by simp, hrw, hbw,
    List.dropWhile_cons]
  have hb : isPySpace b = false := by
    have hbmem : b ∈ u.reverse ++ ((a :: t) ++ [' ']).reverse := by
      rw [hbw]
      exact List.mem_cons_self b w
    rcases List.mem_append.mp hbmem with hc | hc
    · exact hu b (List.mem_reverse.mp hc)
    · -- b is the head of `u.reverse ++ ...`; since `u.reverse ≠ []`, this
      -- case cannot put b outside u, but membership alone also settles it:
      -- b would be in `(a :: t) ++ [' ']`, yet the head of the append with
      -- nonempty left list lies in `u.reverse`.
      have hune' : u.reverse ≠ [] := by
        intro hnil
        exact hune (by simpa using congrArg List.reverse hnil)
      obtain ⟨c, w', hcw⟩ := List.exists_cons_of_ne_nil hune'
      rw [hcw] at hbw
      have : b = c := by
        have := hbw
        simp only [List.cons_append] at this
        exact (List.cons_eq_cons.mp this).1.symm
      rw [this]
      exact hu c (List.mem_reverse.mp (hcw ▸ List.mem_cons_self c w'))
  simp only [hb, Bool.false_eq_true, if_false]
  rw [← hbw, ← hrw, List.reverse_reverse]

/-! ### Claim theorems -/

/-- Claim C1, counterexample: the spans `"120v"` then `"240v"` both match the
voltage pattern, yet `detect_parameters` returns the value derived from the
second span — the assignment `parameters[param_type] = result` overwrites, so
resolution is last-match-wins, not first-match-wins. -/
theorem detect_parameters_overwrites_first_match :
    extract_parameter "120v" "voltage" = some "120" ∧
    extract_parameter "240v" "voltage" = some "240" ∧
    detect_parameters
        [((some 0 : Option Nat), "120v", (some 0 : Option Nat)),
         ((some 1 : Option Nat), "240v", (some 1 : Option Nat))] ["voltage"]
      = [("voltage", "240")] ∧
    ("240" : String) ≠ "120" :=
  ⟨rfl, rfl, rfl, by decide⟩

/-- Claim C1 (amended): parameter-type resolution is last-match-wins over the
evidence stream: whenever the final span of the sequence matches a requested
type, the resolved value is the one derived from that final span, regardless
of any matches in earlier spans. -/
theorem detect_parameters_last_match (pre : List Span) (b : Span)
    (params : List String) (t v : String) (ht : t ∈ params)
    (hm : extract_parameter b.2.1 t = some v) (hv : v ≠ "") :
    (detect_parameters (pre ++ [b]) params).lookup t = some v := by
  unfold detect_parameters
  rw [List.foldl_append]
  simp only [List.foldl_cons, List.foldl_nil]
  exact innerFold_lookup_of_mem b.2.1 t v hm hv params _ ht

/-- Witness for `detect_parameters_last_match` at a concrete stream. -/
theorem detect_parameters_last_match_witness :
    ("voltage" : String) ∈ ["voltage"] ∧
    extract_parameter (((none : Option Nat), "240v", (none : Option Nat)) : Span).2.1 "voltage"
      = some "240" ∧
    ("240" : String) ≠ "" ∧
    (detect_parameters ([((some 0 : Option Nat), "120v", (some 0 : Option Nat))] ++
        [((none : Option Nat), "240v", (none : Option Nat))]) ["voltage"]).lookup "voltage"
      = some "240" :=
  ⟨by decide, rfl, by decide,
   detect_parameters_last_match _ _ _ _ _ (by decide) rfl (by decide)⟩

/-- Claim C2: `process_chunk` appends `future.result()` in `as_completed`
(completion) order and assigns the list positionally to the chunk, so with
two rows whose tasks finish in reverse order, the output has the right
length but row 0 receives row 1's result — index correspondence is lost. -/
theorem process_chunk_results_completion_order_bug :
    (process_chunk_results ["row0 result", "row1 result"] [1, 0]).length = 2 ∧
    List.Perm [1, 0] (List.range 2) ∧
    process_chunk_results ["row0 result", "row1 result"] [1, 0]
      = ["row1 result", "row0 result"] ∧
    process_chunk_results ["row0 result", "row1 result"] [1, 0]
      ≠ ["row0 result", "row1 result"] :=
  ⟨rfl, by decide, rfl, by decide⟩

/-- Claim C3, counterexample: `process_image` has no `try/except`, so an
exception raised inside `model.predict` propagates out of the per-row task;
`future.result()` then re-raises it inside `process_chunk`, aborting the
batch collection. -/
theorem process_image_exception_escapes :
    process_image (FetchOutcome.ok "img.jpg") (fun _ _ => Except.error ())
        "item_weight" entity_mapping = Except.error () ∧
    collect_results
        [process_image (FetchOutcome.ok "img.jpg") (fun _ _ => Except.error ())
          "item_weight" entity_mapping] [0] = Except.error () :=
  ⟨rfl, rfl⟩

/-- Claim C3 (amended): acquisition failures (non-200 status or an exception
during download, both folded into `download_image` returning `None`) and
decode failures (`predict` returning `None`) are converted locally into the
`"No result"` sentinel, and as long as prediction itself raises no
exception, `process_image` always returns a plain result. -/
theorem process_image_catches_acquisition_and_decode (dl : FetchOutcome)
    (predict : String → String → Except Unit (Option (List (String × String))))
    (en : String) (em : List (String × String))
    (hp : ∀ p pt, predict p pt ≠ Except.error ()) :
    (∃ s, process_image dl predict en em = Except.ok s) ∧
    (download_image dl = none → process_image dl predict en em = Except.ok "No result") ∧
    (∀ path, dl = FetchOutcome.ok path →
      predict path (resolve_param_type em en) = Except.ok none →
      process_image dl predict en em = Except.ok "No result") := by
  refine ⟨?_, fun hdl => ?_, fun path hdl hnone => ?_⟩
  · cases dl with
    | ok path =>
      cases hpp : predict path (resolve_param_type em en) with
      | error e => cases e; exact absurd hpp (hp _ _)
      | ok o =>
        cases o with
        | none => exact ⟨"No result", by simp [process_image, download_image, hpp]⟩
        | some preds =>
          cases preds with
          | nil => exact ⟨"No result", by simp [process_image, download_image, hpp]⟩
          | cons kv rest => exact ⟨kv.2, by simp [process_image, download_image, hpp]⟩
    | httpError code => exact ⟨"No result", rfl⟩
    | exn => exact ⟨"No result", rfl⟩
  · cases dl with
    | ok path => simp [download_image] at hdl
    | httpError code => rfl
    | exn => rfl
  · subst hdl
    simp [process_image, download_image, hnone]

/-- Witness for `process_image_catches_acquisition_and_decode`: a failed
fetch and a decode failure both yield the sentinel. -/
theorem process_image_catches_witness :
    (∃ s, process_image FetchOutcome.exn (fun _ _ => Except.ok none)
        "item_weight" entity_mapping = Except.ok s) ∧
    process_image FetchOutcome.exn (fun _ _ => Except.ok none)
        "item_weight" entity_mapping = Except.ok "No result" ∧
    process_image (FetchOutcome.ok "img.jpg") (fun _ _ => Except.ok none)
        "item_weight" entity_mapping = Except.ok "No result" :=
  ⟨(process_image_catches_acquisition_and_decode FetchOutcome.exn _ "item_weight"
      entity_mapping (fun _ _ h => Except.noConfusion h)).1,
   (process_image_catches_acquisition_and_decode FetchOutcome.exn _ "item_weight"
      entity_mapping (fun _ _ h => Except.noConfusion h)).2.1 rfl,
   (process_image_catches_acquisition_and_decode (FetchOutcome.ok "img.jpg") _
      "item_weight" entity_mapping (fun _ _ h => Except.noConfusion h)).2.2 "img.jpg"
      rfl rfl⟩

/-- Claim C4, counterexample: a whitespace-only Engine A (easyocr) span
passes through `detect_text` unfiltered — the `if text.strip()` filter is
applied only to Engine B's (tesseract) lines, so a span with
whitespace-only text does appear in the fused stream. -/
theorem detect_text_whitespace_span_from_engineA :
    detect_text [((some 0 : Option Nat), " ", (some 0 : Option Nat))] ""
      = [((some 0 : Option Nat), " ", (some 0 : Option Nat))] ∧
    pyStrip " " = "" :=
  ⟨rfl, rfl⟩

/-- Claim C4 (amended): the fused stream is Engine A's spans exactly as
returned (in A's order, unfiltered) followed by Engine B's lines in line
order; only Engine B's contribution has empty/whitespace-only lines
dropped, so every span past A's prefix is a non-blank tesseract line. -/
theorem detect_text_fusion (ea : List Span) (ts : String) :
    (detect_text ea ts).take ea.length = ea ∧
    ∀ sp ∈ (detect_text ea ts).drop ea.length,
      sp.1 = none ∧ sp.2.2 = none ∧ pyStrip sp.2.1 ≠ "" ∧
      sp.2.1 ∈ (splitOnChar '\n' ts.data).map String.mk := by
  constructor
  · unfold detect_text
    exact List.take_left _ _
  · unfold detect_text
    rw [List.drop_left]
    intro sp hsp
    simp only [List.mem_map, List.mem_filter] at hsp
    obtain ⟨tx, ⟨htx, hne⟩, rfl⟩ := hsp
    refine ⟨rfl, rfl, ?_, List.mem_map.mpr htx⟩
    simpa using hne

/-- Witness for `detect_text_fusion` at a concrete engine output. -/
theorem detect_text_fusion_witness :
    (detect_text [((some 0 : Option Nat), "a", (some 0 : Option Nat))] "line1\n \nline2").take 1
      = [((some 0 : Option Nat), "a", (some 0 : Option Nat))] ∧
    pyStrip ((((none : Option Nat), "line1", (none : Option Nat)) : Span)).2.1 ≠ "" :=
  ⟨(detect_text_fusion [((some 0 : Option Nat), "a", (some 0 : Option Nat))] "line1\n \nline2").1,
   ((detect_text_fusion [((some 0 : Option Nat), "a", (some 0 : Option Nat))] "line1\n \nline2").2
      ((none : Option Nat), "line1", (none : Option Nat)) (by decide)).2.2.1⟩

/-- Claim C5: matching is case-insensitive in the span text — the text is
lowercased before pattern matching, so any two casing variants of the same
text (equal after lowercasing) extract identically for every type. -/
theorem extract_parameter_case_insensitive (s s' t : String)
    (h : lowerList s.data = lowerList s'.data) :
    extract_parameter s t = extract_parameter s' t := by
  unfold extract_parameter
  rw [h]

/-- Witness for `extract_parameter_case_insensitive`: `"120V"` and `"120v"`
resolve the voltage pattern identically. -/
theorem extract_parameter_case_insensitive_witness :
    lowerList "120V".data = lowerList "120v".data ∧
    extract_parameter "120V" "voltage" = extract_parameter "120v" "voltage" ∧
    extract_parameter "120v" "voltage" = some "120" :=
  ⟨rfl, extract_parameter_case_insensitive "120V" "120v" "voltage" rfl, rfl⟩

/-- Claim C6: requesting `{weight}` over the stream
`["package weight 2.5kg net", "other text"]` yields `{weight: "2.5 kg"}`;
in general a two-group match builds `"value unit"` and a one-group match
builds the bare value (the code strips the joined string, which for
whitespace-free groups is exactly the join, and drops the trailing
separator when the unit is absent). -/
theorem extract_parameter_weight_scenario :
    detect_parameters
        [((some 0 : Option Nat), "package weight 2.5kg net", (some 0 : Option Nat)),
         ((some 1 : Option Nat), "other text", (some 1 : Option Nat))] ["weight"]
      = [("weight", "2.5 kg")] ∧
    (∀ v u : List Char, (∀ c ∈ v, isPySpace c = false) → (∀ c ∈ u, isPySpace c = false) →
      v ≠ [] → u ≠ [] → build_result [v, u] = String.mk (v ++ [' '] ++ u)) ∧
    (∀ v : List Char, (∀ c ∈ v, isPySpace c = false) →
      build_result [v] = String.mk v) := by
  refine ⟨rfl, ?_, ?_⟩
  · intro v u hv hu hvne hune
    show String.mk (trimList (v ++ [' '] ++ u)) = String.mk (v ++ [' '] ++ u)
    exact congrArg String.mk (trimList_join v u hv hu hvne hune)
  · intro v hv
    show String.mk (trimList (v ++ [' '] ++ [])) = String.mk v
    rw [List.append_nil]
    exact congrArg String.mk (trimList_append_space v hv)

/-- Witness for `extract_parameter_weight_scenario` at the scenario's
captured groups. -/
theorem extract_parameter_weight_scenario_witness :
    detect_parameters
        [((some 0 : Option Nat), "package weight 2.5kg net", (some 0 : Option Nat)),
         ((some 1 : Option Nat), "other text", (some 1 : Option Nat))] ["weight"]
      = [("weight", "2.5 kg")] ∧
    build_result [['2', '.', '5'], ['k', 'g']]
      = String.mk (['2', '.', '5'] ++ [' '] ++ ['k', 'g']) ∧
    build_result [['1', '2', '0']] = String.mk ['1', '2', '0'] :=
  ⟨extract_parameter_weight_scenario.1,
   extract_parameter_weight_scenario.2.1 ['2', '.', '5'] ['k', 'g']
     (by decide) (by decide) (by decide) (by decide),
   extract_parameter_weight_scenario.2.2 ['1', '2', '0'] (by decide)⟩

/-- Claim C7: a requested parameter type with no entry in the pattern table
yields `None` for every input text (the embedding is a total function, so
no exception can be raised). -/
theorem extract_parameter_unknown_type (t : String)
    (h : parameter_patterns.lookup (String.mk (lowerList t.data)) = none) :
    ∀ s : String, extract_parameter s t = none := by
  intro s
  unfold extract_parameter
  rw [h]

/-- Witness for `extract_parameter_unknown_type`: the type `"color"` has no
pattern. -/
theorem extract_parameter_unknown_type_witness :
    parameter_patterns.lookup (String.mk (lowerList "color".data)) = none ∧
    extract_parameter "some 5 kg text" "color" = none :=
  ⟨rfl, extract_parameter_unknown_type "color" rfl "some 5 kg text"⟩

/-- Claim C8: an empty evidence stream resolves no parameters — for every
requested type set, `detect_parameters` returns the empty dictionary. -/
theorem detect_parameters_empty_stream (params : List String) :
    detect_parameters [] params = [] := rfl

/-- Claim C9: the resolved parameter type of a row is the entity mapping's
entry for its entity name when one exists, and the entity name itself
otherwise (`entity_mapping.get(entity_name, entity_name)`). -/
theorem resolve_param_type_mapped_or_default (em : List (String × String)) (n : String) :
    (∀ t, em.lookup n = some t → resolve_param_type em n = t) ∧
    (em.lookup n = none → resolve_param_type em n = n) := by
  constructor
  · intro t h
    unfold resolve_param_type
    rw [h]
    rfl
  · intro h
    unfold resolve_param_type
    rw [h]
    rfl

/-- Witness for `resolve_param_type_mapped_or_default` on the static
mapping of `main`. -/
theorem resolve_param_type_witness :
    resolve_param_type entity_mapping "item_weight" = "weight" ∧
    resolve_param_type entity_mapping "brand_name" = "brand_name" :=
  ⟨(resolve_param_type_mapped_or_default entity_mapping "item_weight").1 "weight" rfl,
   (resolve_param_type_mapped_or_default entity_mapping "brand_name").2 rfl⟩

/-- Claim C10: the `kV`/`mV` alternatives of the voltage pattern are
unreachable: the text is lowercased before matching while those
alternatives contain an uppercase `V` and matching is case-sensitive, so
extraction behaves exactly as if they were deleted from the pattern, and
texts such as `"120 kV"`/`"120 mV"` yield no voltage value while `"120 V"`
matches through the lowercase `v` alternative. -/
theorem voltage_uppercase_alternatives_unreachable :
    (∀ s : String, extract_parameter s "voltage" = extract_voltage_sansUpper s) ∧
    extract_parameter "120 kV" "voltage" = none ∧
    extract_parameter "120 mV" "voltage" = none ∧
    extract_parameter "120 KV" "voltage" = none ∧
    extract_parameter "120 V" "voltage" = some "120" := by
  refine ⟨fun s => ?_, rfl, rfl, rfl, rfl⟩
  have hlk : parameter_patterns.lookup (String.mk (lowerList ("voltage" : String).data))
      = some voltageP := rfl
  unfold extract_parameter extract_voltage_sansUpper
  rw [hlk]
  show (match searchFrom voltageP (lowerList s.data) with
    | some groups => some (build_result groups)
    | none => none) =
    (match searchFrom voltageLowerP (lowerList s.data) with
    | some groups => some (build_result groups)
    | none => none)
  rw [searchFrom_voltage_lower (lowerList s.data) (not_V_mem_lowerList s.data)]
